import Mathlib

/-!
# Verification of the cooking-assistant core (recipe parser and command router)

Shallow embedding of the logic in `src/app.py`: the line-based recipe parser
inside `get_recipe_from_ai` and the keyword command router of the Send handler,
together with the session state they read and mutate.  Python string
operations (`split`, `strip`, `lower`, `startswith`, the `in` substring test,
`str.join`) are modelled by executable functions on `String` / `List Char`
below; Python `int` cursors are modelled by `Nat`, which is faithful here
because the data model constrains `current_step` to `0 ≤ current_step` and the
code only ever sets it to `0`, increments it, or decrements it under a
`current_step > 1` guard.  A possible `IndexError` from `steps[i]` is modelled
by returning `none`.
-/

namespace CookingApp

/-- Model of Python `content.split("\x22\x5cn\x22")` on the character list: split at every
newline character; `n` newlines yield `n + 1` (possibly empty) pieces. -/
def splitNL : List Char → List (List Char)
  | [] => [[]]
  | c :: rest =>
    let r := splitNL rest
    if c = '\n' then [] :: r
    else
      match r with
      | [] => [[c]]
      | h :: t => (c :: h) :: t

/-- Model of Python `line.strip()`: drop whitespace from both ends.
(`Char.isWhitespace` covers space, tab, CR, LF — the characters that occur in
model replies; Python additionally strips `\x5cv`/`\x5cf`, which never appear here.) -/
def pyStrip (cs : List Char) : List Char :=
  ((cs.dropWhile Char.isWhitespace).reverse.dropWhile Char.isWhitespace).reverse

/-- The line preprocessing of `get_recipe_from_ai`:
`[line.strip() for line in content.split("\x22\x5cn\x22") if line.strip()]`. -/
def splitLines (content : String) : List String :=
  ((splitNL content.data).map (fun cs => String.mk (pyStrip cs))).filter
    (fun l => l ≠ "")

/-- Model of Python `s.lower()` (ASCII case folding, which is all the parser
compares against). -/
def pyLower (s : String) : String :=
  String.mk (s.data.map Char.toLower)

/-- Prefix test on character lists, structural so that proofs can unfold it. -/
def isPrefixCh : List Char → List Char → Bool
  | [], _ => true
  | _ :: _, [] => false
  | a :: as, b :: bs => a == b && isPrefixCh as bs

/-- Model of Python `s.startswith(p)`. -/
def pyStartswith (s p : String) : Bool :=
  isPrefixCh p.data s.data

/-- Substring occurrence on character lists. -/
def occursIn (needle : List Char) : List Char → Bool
  | [] => needle.isEmpty
  | c :: rest => isPrefixCh needle (c :: rest) || occursIn needle rest

/-- Model of Python `w in s` (substring containment). -/
def pyIn (w s : String) : Bool :=
  occursIn w.data s.data

/-- Model of Python `line[0].isdigit()` for the decimal digits that can occur
in a model reply; the lines this is applied to are non-empty by construction
(`splitLines` filters out empty lines). -/
def pyFirstIsDigit (line : String) : Bool :=
  match line.data with
  | [] => false
  | c :: _ => c.isDigit

/-- The structured recipe assembled by `get_recipe_from_ai`: the four values
`title, description, ingredients, steps` it returns. -/
structure Recipe where
  title : String
  description : String
  ingredients : List String
  steps : List String
deriving DecidableEq

/-- The parser's loop state: the four accumulators plus the two section flags
`in_ingredients` / `in_steps`. -/
structure ParseState where
  title : String
  description : String
  ingredients : List String
  steps : List String
  in_ingredients : Bool
  in_steps : Bool
deriving DecidableEq

/-- Initial parser state: empty fields, both section flags `False`. -/
def initParse : ParseState :=
  ⟨"", "", [], [], false, false⟩

/-- One iteration of the parser loop in `get_recipe_from_ai`
(src/app.py lines 81-102), processing a single stripped non-empty line. -/
def parseLine (st : ParseState) (line : String) : ParseState :=
  let lower := pyLower line
  if pyStartswith lower "recipe:" then
    { st with title := line }
  else
    let st1 :=
      if st.description == "" && !pyStartswith lower "ingredients"
          && !pyStartswith lower "steps" then
        if !pyStartswith lower "recipe:" then { st with description := line }
        else st
      else st
    if pyStartswith lower "ingredients" then
      { st1 with in_ingredients := true, in_steps := false }
    else if pyStartswith lower "steps" then
      { st1 with in_steps := true, in_ingredients := false }
    else if st1.in_ingredients then
      { st1 with ingredients := st1.ingredients ++ [line] }
    else if st1.in_steps && pyFirstIsDigit line then
      { st1 with steps := st1.steps ++ [line] }
    else st1

/-- The description update a content line performs: recorded as the
description exactly when none is set yet. -/
def descUpd (st : ParseState) (l : String) : ParseState :=
  if st.description == "" then { st with description := l } else st

/-- The parser loop run over a list of lines. -/
def parseLoop (st : ParseState) (ls : List String) : ParseState :=
  ls.foldl parseLine st

/-- The parsing portion of `get_recipe_from_ai` (src/app.py lines 72-104),
applied to the model's reply text `content`.  The outbound chat-completion
call is an external adapter; its reply is the input here. -/
def get_recipe_from_ai (content : String) : Recipe :=
  let st := parseLoop initParse (splitLines content)
  ⟨st.title, st.description, st.ingredients, st.steps⟩

example :
    get_recipe_from_ai
        "Recipe: Pancakes\nFluffy breakfast pancakes.\nIngredients:\n- 2 cups flour\n- 1 egg\nSteps:\n1. Mix dry ingredients.\n2. Add egg and milk." =
      ⟨"Recipe: Pancakes", "Fluffy breakfast pancakes.",
        ["- 2 cups flour", "- 1 egg"],
        ["1. Mix dry ingredients.", "2. Add egg and milk."]⟩ := by
  rfl

example :
    get_recipe_from_ai "Steps:\nnote: optional\n1. Boil water." =
      ⟨"", "note: optional", [], ["1. Boil water."]⟩ := by
  rfl

/-- A line that the parser treats as the ingredients-section header:
case-insensitive prefix match on `"ingredients"`. -/
def isIngHeader (l : String) : Bool :=
  pyStartswith (pyLower l) "ingredients"

/-- A line that the parser treats as the steps-section header:
case-insensitive prefix match on `"steps"`. -/
def isStepsHeader (l : String) : Bool :=
  pyStartswith (pyLower l) "steps"

/-- A line that the parser treats as the title: case-insensitive prefix match
on `"recipe:"`. -/
def isTitleLine (l : String) : Bool :=
  pyStartswith (pyLower l) "recipe:"

/-- `x` occurs in the line list `ls` strictly after an ingredients header with
no steps header strictly in between (i.e. inside an ingredients section). -/
def ingProvenance (ls : List String) (x : String) : Prop :=
  ∃ pre hdr mid post, ls = pre ++ hdr :: (mid ++ x :: post) ∧
    isIngHeader hdr = true ∧ ∀ y ∈ mid, isStepsHeader y = false

/-- `x` occurs in the line list `ls` strictly after a steps header with no
ingredients header strictly in between (i.e. inside a steps section). -/
def stepProvenance (ls : List String) (x : String) : Prop :=
  ∃ pre hdr mid post, ls = pre ++ hdr :: (mid ++ x :: post) ∧
    isStepsHeader hdr = true ∧ ∀ y ∈ mid, isIngHeader y = false

/-- The line list ends inside an ingredients section: some ingredients header
is followed only by non-steps-header lines. -/
def lastHdrIng (ls : List String) : Prop :=
  ∃ pre hdr mid, ls = pre ++ hdr :: mid ∧ isIngHeader hdr = true ∧
    ∀ y ∈ mid, isStepsHeader y = false

/-- The line list ends inside a steps section. -/
def lastHdrSteps (ls : List String) : Prop :=
  ∃ pre hdr mid, ls = pre ++ hdr :: mid ∧ isStepsHeader hdr = true ∧
    ∀ y ∈ mid, isIngHeader y = false

/-- Loop invariant of the parser, relating the lines processed so far `p` to
the loop state `st`: the section flags truthfully record which section the
scan is in, and every accumulated ingredient/step element was read inside the
corresponding section and is itself no header line. -/
structure GoodParse (p : List String) (st : ParseState) : Prop where
  ing_flag : st.in_ingredients = true → lastHdrIng p
  steps_flag : st.in_steps = true → lastHdrSteps p
  ing_prov : ∀ x ∈ st.ingredients, ingProvenance p x
  steps_prov : ∀ x ∈ st.steps, stepProvenance p x
  ing_no_hdr : ∀ x ∈ st.ingredients, isIngHeader x = false ∧ isStepsHeader x = false
  steps_no_hdr : ∀ x ∈ st.steps, isIngHeader x = false ∧ isStepsHeader x = false

/-- The spec's Pancakes example input. -/
def pancakesText : String :=
  "Recipe: Pancakes\nFluffy breakfast pancakes.\nIngredients:\n- 2 cups flour\n- 1 egg\nSteps:\n1. Mix dry ingredients.\n2. Add egg and milk."

/-- The session record kept in `st.session_state` (src/app.py lines 139-149):
dish name, the two lists from the last parsed recipe, the step cursor, and the
conversation log of `(role, text)` pairs. -/
structure SessionState where
  dish : String
  ingredients : List String
  steps : List String
  current_step : Nat
  chat_history : List (String × String)
deriving Repr, DecidableEq

/-- The empty session created on the first run (all fields empty / zero). -/
def initSession : SessionState :=
  ⟨"", [], [], 0, []⟩

/-- The cursor invariant of the data model: `0 ≤ current_step ≤ len(steps)`
(the lower bound is carried by the `Nat` type). -/
def cursorInv (s : SessionState) : Prop :=
  s.current_step ≤ s.steps.length

instance (s : SessionState) : Decidable (cursorInv s) := by
  unfold cursorInv; infer_instance

/-- The Advance keyword list of the Send handler:
`any(w in user_cmd for w in ["next", "next step", "go next", "continue"])`. -/
def advanceWords : List String :=
  ["next", "next step", "go next", "continue"]

/-- The classification chain of the Send handler (src/app.py lines 247-275):
given the free-form answerer `llm` (modelling `chat_about_cooking` on the
current dish), the processed command and the session, produce the response
text and the new cursor; `none` models the `IndexError` a `steps[i]` access
out of range would raise. -/
def routeCore (llm : String → String → String) (user_cmd : String)
    (s : SessionState) : Option (String × Nat) :=
  if advanceWords.any (fun w => pyIn w user_cmd) then
    if s.current_step < s.steps.length then
      match s.steps[s.current_step]? with
      | some st =>
        some ("Step " ++ toString (s.current_step + 1) ++ ". " ++ st,
          s.current_step + 1)
      | none => none
    else
      some ("We already finished all the steps.", s.current_step)
  else if pyIn "repeat" user_cmd || pyIn "again" user_cmd then
    if s.current_step > 0 then
      match s.steps[s.current_step - 1]? with
      | some st =>
        some ("Repeating step " ++ toString s.current_step ++ ". " ++ st,
          s.current_step)
      | none => none
    else
      some ("We have not started yet. Say \x27next\x27 to hear the first step.",
        s.current_step)
  else if pyIn "back" user_cmd || pyIn "previous" user_cmd then
    if s.current_step > 1 then
      match s.steps[s.current_step - 1 - 1]? with
      | some st =>
        some ("Going back to step " ++ toString (s.current_step - 1) ++ ". " ++ st,
          s.current_step - 1)
      | none => none
    else
      some ("You are already at the beginning of the recipe.", s.current_step)
  else if pyIn "stop" user_cmd || pyIn "exit" user_cmd || pyIn "quit" user_cmd then
    some ("Okay, stopping the cooking flow. You can still ask questions about cooking.",
      s.current_step)
  else if pyIn "ingredients again" user_cmd || pyIn "list ingredients" user_cmd then
    if s.ingredients ≠ [] then
      some ("Here are the ingredients again: " ++ String.intercalate " " s.ingredients,
        s.current_step)
    else
      some ("I do not have an ingredients list loaded.", s.current_step)
  else
    some (llm s.dish user_cmd, s.current_step)

/-- One routing invocation of the Send handler on a non-empty processed
command: append `(user, user_cmd)` to the history, classify, mutate the
cursor, append `(assistant, response)`.  `none` models the run dying in an
`IndexError` mid-way. -/
def route (llm : String → String → String) (user_cmd : String)
    (s : SessionState) : Option (String × SessionState) :=
  match routeCore llm user_cmd s with
  | none => none
  | some (resp, cs) =>
    some (resp,
      { s with
        current_step := cs,
        chat_history := s.chat_history ++ [("user", user_cmd), ("assistant", resp)] })

/-- The successful part of the Get-recipe handler (src/app.py lines 174-180):
store the dish, parse the reply `content`, replace `ingredients` and `steps`,
reset the cursor to `0`, and log the load message. -/
def loadRecipe (content dish_text : String) (s : SessionState) : SessionState :=
  let r := get_recipe_from_ai content
  { s with
    dish := dish_text,
    ingredients := r.ingredients,
    steps := r.steps,
    current_step := 0,
    chat_history := s.chat_history ++ [("assistant", "Loaded recipe for " ++ dish_text)] }

/-- A fixed stand-in for the free-form LLM answerer, used in concrete
evaluations. -/
def llmFixed : String → String → String :=
  fun _ _ => "Use medium heat."

example :
    route llmFixed "next please"
        ⟨"pasta", ["- salt"], ["Boil water.", "Add salt."], 0, []⟩ =
      some ("Step 1. Boil water.",
        ⟨"pasta", ["- salt"], ["Boil water.", "Add salt."], 1,
          [("user", "next please"), ("assistant", "Step 1. Boil water.")]⟩) := by
  rfl

example :
    route llmFixed "ingredients again"
        ⟨"pasta", ["- salt"], ["Boil water."], 0, []⟩ =
      some ("We have not started yet. Say \x27next\x27 to hear the first step.",
        ⟨"pasta", ["- salt"], ["Boil water."], 0,
          [("user", "ingredients again"),
            ("assistant", "We have not started yet. Say \x27next\x27 to hear the first step.")]⟩) := by
  rfl

example :
    route llmFixed "list ingredients"
        ⟨"pasta", ["- salt"], ["Boil water."], 0, []⟩ =
      some ("Here are the ingredients again: - salt",
        ⟨"pasta", ["- salt"], ["Boil water."], 0,
          [("user", "list ingredients"),
            ("assistant", "Here are the ingredients again: - salt")]⟩) := by
  rfl

/-! ## Helper lemmas about the parser -/

/-- Two prefix tests with different first characters cannot both succeed. -/
theorem pyStartswith_excl {s p q : String} (cp cq : Char) (ps qs : List Char)
    (hp : p.data = cp :: ps) (hq : q.data = cq :: qs) (hne : cp ≠ cq)
    (h1 : pyStartswith s p = true) : pyStartswith s q = false := by
  unfold pyStartswith at h1 ⊢
  rw [hp] at h1
  rw [hq]
  cases hsd : s.data with
  | nil => rw [hsd] at h1; simp [isPrefixCh] at h1
  | cons c cs =>
    rw [hsd] at h1
    simp only [isPrefixCh, Bool.and_eq_true, beq_iff_eq] at h1
    have hcq : (cq == c) = false := by
      refine beq_eq_false_iff_ne.mpr ?_
      intro hcqc
      exact hne (h1.1.trans hcqc.symm)
    simp [isPrefixCh, hcq]

theorem title_not_ing {l : String} (h : pyStartswith (pyLower l) "recipe:" = true) :
    isIngHeader l = false :=
  pyStartswith_excl 'r' 'i' ['e', 'c', 'i', 'p', 'e', ':']
    ['n', 'g', 'r', 'e', 'd', 'i', 'e', 'n', 't', 's'] rfl rfl (by decide) h

theorem title_not_steps {l : String} (h : pyStartswith (pyLower l) "recipe:" = true) :
    isStepsHeader l = false :=
  pyStartswith_excl 'r' 's' ['e', 'c', 'i', 'p', 'e', ':'] ['t', 'e', 'p', 's']
    rfl rfl (by decide) h

/-- Branch lemma: a title line only records the title. -/
theorem parseLine_title (st : ParseState) (l : String)
    (h : pyStartswith (pyLower l) "recipe:" = true) :
    parseLine st l = { st with title := l } := by
  unfold parseLine
  simp [h]

/-- Branch lemma: an ingredients header only flips the section flags. -/
theorem parseLine_ingHdr (st : ParseState) (l : String)
    (h1 : pyStartswith (pyLower l) "recipe:" = false)
    (h2 : isIngHeader l = true) :
    parseLine st l = { st with in_ingredients := true, in_steps := false } := by
  unfold parseLine
  simp [isIngHeader] at h2
  simp [h1, h2]

/-- Branch lemma: a steps header only flips the section flags. -/
theorem parseLine_stepsHdr (st : ParseState) (l : String)
    (h1 : pyStartswith (pyLower l) "recipe:" = false)
    (h2 : isIngHeader l = false)
    (h3 : isStepsHeader l = true) :
    parseLine st l = { st with in_steps := true, in_ingredients := false } := by
  unfold parseLine
  simp [isIngHeader] at h2
  simp [isStepsHeader] at h3
  simp [h1, h2, h3]

/-- Branch lemma: the first content line before any description becomes the
description (flags both off, so nothing is appended). -/
theorem parseLine_desc (st : ParseState) (l : String)
    (h1 : pyStartswith (pyLower l) "recipe:" = false)
    (h2 : isIngHeader l = false)
    (h3 : isStepsHeader l = false)
    (hd : st.description = "")
    (hfi : st.in_ingredients = false)
    (hfs : st.in_steps = false) :
    parseLine st l = { st with description := l } := by
  unfold parseLine
  simp [isIngHeader] at h2
  simp [isStepsHeader] at h3
  simp [h1, h2, h3, hd, hfi, hfs]

/-- Branch lemma: a content line inside the ingredients section with the
description already set is appended verbatim to `ingredients`. -/
theorem parseLine_ingAppend (st : ParseState) (l : String)
    (h1 : pyStartswith (pyLower l) "recipe:" = false)
    (h2 : isIngHeader l = false)
    (h3 : isStepsHeader l = false)
    (hd : st.description ≠ "")
    (hfi : st.in_ingredients = true) :
    parseLine st l = { st with ingredients := st.ingredients ++ [l] } := by
  unfold parseLine
  simp [isIngHeader] at h2
  simp [isStepsHeader] at h3
  simp [h1, h2, h3, hd, hfi]

/-- Branch lemma: a digit-initial content line inside the steps section with
the description already set is appended verbatim to `steps`. -/
theorem parseLine_stepAppend (st : ParseState) (l : String)
    (h1 : pyStartswith (pyLower l) "recipe:" = false)
    (h2 : isIngHeader l = false)
    (h3 : isStepsHeader l = false)
    (hd : st.description ≠ "")
    (hfi : st.in_ingredients = false)
    (hfs : st.in_steps = true)
    (hdig : pyFirstIsDigit l = true) :
    parseLine st l = { st with steps := st.steps ++ [l] } := by
  unfold parseLine
  simp [isIngHeader] at h2
  simp [isStepsHeader] at h3
  simp [h1, h2, h3, hd, hfi, hfs, hdig]

theorem parseLoop_cons (st : ParseState) (l : String) (ls : List String) :
    parseLoop st (l :: ls) = parseLoop (parseLine st l) ls := rfl

theorem parseLoop_append (st : ParseState) (ls₁ ls₂ : List String) :
    parseLoop st (ls₁ ++ ls₂) = parseLoop (parseLoop st ls₁) ls₂ :=
  List.foldl_append parseLine st ls₁ ls₂

/-- Running the loop over an ingredients section appends the lines in order. -/
theorem parseLoop_ingSection (ig : List String) (st : ParseState)
    (hd : st.description ≠ "") (hfi : st.in_ingredients = true)
    (hno : ∀ l ∈ ig, pyStartswith (pyLower l) "recipe:" = false ∧
      isIngHeader l = false ∧ isStepsHeader l = false) :
    parseLoop st ig = { st with ingredients := st.ingredients ++ ig } := by
  induction ig generalizing st with
  | nil => simp [parseLoop]
  | cons l ig ih =>
    obtain ⟨hr, hi, hs⟩ := hno l (List.mem_cons_self l ig)
    rw [parseLoop_cons, parseLine_ingAppend st l hr hi hs hd hfi,
      ih { st with ingredients := st.ingredients ++ [l] } hd hfi
        (fun l₂ hl₂ => hno l₂ (List.mem_cons_of_mem l hl₂))]
    simp

/-- Running the loop over a steps section of digit-initial lines appends the
lines in order. -/
theorem parseLoop_stepSection (sl : List String) (st : ParseState)
    (hd : st.description ≠ "") (hfi : st.in_ingredients = false)
    (hfs : st.in_steps = true)
    (hno : ∀ l ∈ sl, pyStartswith (pyLower l) "recipe:" = false ∧
      isIngHeader l = false ∧ isStepsHeader l = false ∧ pyFirstIsDigit l = true) :
    parseLoop st sl = { st with steps := st.steps ++ sl } := by
  induction sl generalizing st with
  | nil => simp [parseLoop]
  | cons l sl ih =>
    obtain ⟨hr, hi, hs, hdig⟩ := hno l (List.mem_cons_self l sl)
    rw [parseLoop_cons, parseLine_stepAppend st l hr hi hs hd hfi hfs hdig,
      ih { st with steps := st.steps ++ [l] } hd hfi hfs
        (fun l₂ hl₂ => hno l₂ (List.mem_cons_of_mem l hl₂))]
    simp

/-! ## Helper lemmas for the section-provenance invariant -/

theorem lastHdrIng_extend {p : List String} {l : String} (h : lastHdrIng p)
    (hl : isStepsHeader l = false) : lastHdrIng (p ++ [l]) := by
  obtain ⟨pre, hdr, mid, hp, hh, hm⟩ := h
  refine ⟨pre, hdr, mid ++ [l], ?_, hh, ?_⟩
  · rw [hp]; simp
  · intro y hy
    rcases List.mem_append.mp hy with hy | hy
    · exact hm y hy
    · rw [List.mem_singleton.mp hy]; exact hl

theorem lastHdrSteps_extend {p : List String} {l : String} (h : lastHdrSteps p)
    (hl : isIngHeader l = false) : lastHdrSteps (p ++ [l]) := by
  obtain ⟨pre, hdr, mid, hp, hh, hm⟩ := h
  refine ⟨pre, hdr, mid ++ [l], ?_, hh, ?_⟩
  · rw [hp]; simp
  · intro y hy
    rcases List.mem_append.mp hy with hy | hy
    · exact hm y hy
    · rw [List.mem_singleton.mp hy]; exact hl

theorem ingProvenance_extend {p : List String} {x l : String}
    (h : ingProvenance p x) : ingProvenance (p ++ [l]) x := by
  obtain ⟨pre, hdr, mid, post, hp, hh, hm⟩ := h
  exact ⟨pre, hdr, mid, post ++ [l], by rw [hp]; simp, hh, hm⟩

theorem stepProvenance_extend {p : List String} {x l : String}
    (h : stepProvenance p x) : stepProvenance (p ++ [l]) x := by
  obtain ⟨pre, hdr, mid, post, hp, hh, hm⟩ := h
  exact ⟨pre, hdr, mid, post ++ [l], by rw [hp]; simp, hh, hm⟩

theorem ingProvenance_new {p : List String} {l : String} (h : lastHdrIng p) :
    ingProvenance (p ++ [l]) l := by
  obtain ⟨pre, hdr, mid, hp, hh, hm⟩ := h
  exact ⟨pre, hdr, mid, [], by rw [hp]; simp, hh, hm⟩

theorem stepProvenance_new {p : List String} {l : String} (h : lastHdrSteps p) :
    stepProvenance (p ++ [l]) l := by
  obtain ⟨pre, hdr, mid, hp, hh, hm⟩ := h
  exact ⟨pre, hdr, mid, [], by rw [hp]; simp, hh, hm⟩

/-- Processing a non-header line that is appended to neither list preserves
the invariant. -/
theorem goodParse_preserve {p : List String} {st st2 : ParseState} {l : String}
    (hg : GoodParse p st)
    (hih : isIngHeader l = false) (hsh : isStepsHeader l = false)
    (e1 : st2.in_ingredients = st.in_ingredients) (e2 : st2.in_steps = st.in_steps)
    (e3 : st2.ingredients = st.ingredients) (e4 : st2.steps = st.steps) :
    GoodParse (p ++ [l]) st2 :=
  { ing_flag := fun hf => lastHdrIng_extend (hg.ing_flag (e1 ▸ hf)) hsh
    steps_flag := fun hf => lastHdrSteps_extend (hg.steps_flag (e2 ▸ hf)) hih
    ing_prov := fun x hx => ingProvenance_extend (hg.ing_prov x (e3 ▸ hx))
    steps_prov := fun x hx => stepProvenance_extend (hg.steps_prov x (e4 ▸ hx))
    ing_no_hdr := fun x hx => hg.ing_no_hdr x (e3 ▸ hx)
    steps_no_hdr := fun x hx => hg.steps_no_hdr x (e4 ▸ hx) }

/-- Processing a non-header line appended to `ingredients` (so the scan is
inside an ingredients section) preserves the invariant. -/
theorem goodParse_ingAppend {p : List String} {st st2 : ParseState} {l : String}
    (hg : GoodParse p st)
    (hih : isIngHeader l = false) (hsh : isStepsHeader l = false)
    (hfi : st.in_ingredients = true)
    (e1 : st2.in_ingredients = st.in_ingredients) (e2 : st2.in_steps = st.in_steps)
    (e3 : st2.ingredients = st.ingredients ++ [l]) (e4 : st2.steps = st.steps) :
    GoodParse (p ++ [l]) st2 :=
  { ing_flag := fun hf => lastHdrIng_extend (hg.ing_flag (e1 ▸ hf)) hsh
    steps_flag := fun hf => lastHdrSteps_extend (hg.steps_flag (e2 ▸ hf)) hih
    ing_prov := fun x hx => by
      rw [e3] at hx
      rcases List.mem_append.mp hx with hx | hx
      · exact ingProvenance_extend (hg.ing_prov x hx)
      · rw [List.mem_singleton.mp hx]
        exact ingProvenance_new (hg.ing_flag hfi)
    steps_prov := fun x hx => stepProvenance_extend (hg.steps_prov x (e4 ▸ hx))
    ing_no_hdr := fun x hx => by
      rw [e3] at hx
      rcases List.mem_append.mp hx with hx | hx
      · exact hg.ing_no_hdr x hx
      · rw [List.mem_singleton.mp hx]
        exact ⟨hih, hsh⟩
    steps_no_hdr := fun x hx => hg.steps_no_hdr x (e4 ▸ hx) }

/-- Processing a non-header line appended to `steps` (so the scan is inside a
steps section) preserves the invariant. -/
theorem goodParse_stepAppend {p : List String} {st st2 : ParseState} {l : String}
    (hg : GoodParse p st)
    (hih : isIngHeader l = false) (hsh : isStepsHeader l = false)
    (hfs : st.in_steps = true)
    (e1 : st2.in_ingredients = st.in_ingredients) (e2 : st2.in_steps = st.in_steps)
    (e3 : st2.ingredients = st.ingredients) (e4 : st2.steps = st.steps ++ [l]) :
    GoodParse (p ++ [l]) st2 :=
  { ing_flag := fun hf => lastHdrIng_extend (hg.ing_flag (e1 ▸ hf)) hsh
    steps_flag := fun hf => lastHdrSteps_extend (hg.steps_flag (e2 ▸ hf)) hih
    ing_prov := fun x hx => ingProvenance_extend (hg.ing_prov x (e3 ▸ hx))
    steps_prov := fun x hx => by
      rw [e4] at hx
      rcases List.mem_append.mp hx with hx | hx
      · exact stepProvenance_extend (hg.steps_prov x hx)
      · rw [List.mem_singleton.mp hx]
        exact stepProvenance_new (hg.steps_flag hfs)
    ing_no_hdr := fun x hx => hg.ing_no_hdr x (e3 ▸ hx)
    steps_no_hdr := fun x hx => by
      rw [e4] at hx
      rcases List.mem_append.mp hx with hx | hx
      · exact hg.steps_no_hdr x hx
      · rw [List.mem_singleton.mp hx]
        exact ⟨hih, hsh⟩ }

/-- One parser iteration preserves the section-provenance invariant. -/
theorem goodParse_step {p : List String} {st : ParseState} (l : String)
    (hg : GoodParse p st) : GoodParse (p ++ [l]) (parseLine st l) := by
  by_cases ht : pyStartswith (pyLower l) "recipe:" = true
  · rw [parseLine_title st l ht]
    exact
      { ing_flag := fun hf => lastHdrIng_extend (hg.ing_flag hf) (title_not_steps ht)
        steps_flag := fun hf => lastHdrSteps_extend (hg.steps_flag hf) (title_not_ing ht)
        ing_prov := fun x hx => ingProvenance_extend (hg.ing_prov x hx)
        steps_prov := fun x hx => stepProvenance_extend (hg.steps_prov x hx)
        ing_no_hdr := hg.ing_no_hdr
        steps_no_hdr := hg.steps_no_hdr }
  · have ht' : pyStartswith (pyLower l) "recipe:" = false := by
      cases hb : pyStartswith (pyLower l) "recipe:"
      · rfl
      · exact absurd hb ht
    by_cases hih : isIngHeader l = true
    · rw [parseLine_ingHdr st l ht' hih]
      exact
        { ing_flag := fun _ => ⟨p, l, [], by simp, hih, by simp⟩
          steps_flag := fun hf => by simp at hf
          ing_prov := fun x hx => ingProvenance_extend (hg.ing_prov x hx)
          steps_prov := fun x hx => stepProvenance_extend (hg.steps_prov x hx)
          ing_no_hdr := hg.ing_no_hdr
          steps_no_hdr := hg.steps_no_hdr }
    · have hih' : isIngHeader l = false := by
        cases hb : isIngHeader l
        · rfl
        · exact absurd hb hih
      by_cases hsh : isStepsHeader l = true
      · rw [parseLine_stepsHdr st l ht' hih' hsh]
        exact
          { ing_flag := fun hf => by simp at hf
            steps_flag := fun _ => ⟨p, l, [], by simp, hsh, by simp⟩
            ing_prov := fun x hx => ingProvenance_extend (hg.ing_prov x hx)
            steps_prov := fun x hx => stepProvenance_extend (hg.steps_prov x hx)
            ing_no_hdr := hg.ing_no_hdr
            steps_no_hdr := hg.steps_no_hdr }
      · have hsh' : isStepsHeader l = false := by
          cases hb : isStepsHeader l
          · rfl
          · exact absurd hb hsh
        simp only [isIngHeader] at hih'
        simp only [isStepsHeader] at hsh'
        by_cases hdesc : (st.description == "") = true
        · have hpl : parseLine st l =
              (if st.in_ingredients then
                { st with description := l, ingredients := st.ingredients ++ [l] }
              else if st.in_steps && pyFirstIsDigit l then
                { st with description := l, steps := st.steps ++ [l] }
              else { st with description := l }) := by
            unfold parseLine
            simp [ht', hih', hsh', hdesc]
          rw [hpl]
          by_cases hfi : st.in_ingredients = true
          · rw [if_pos hfi]
            exact goodParse_ingAppend hg
              (by simp only [isIngHeader]; exact hih')
              (by simp only [isStepsHeader]; exact hsh') hfi rfl rfl rfl rfl
          · rw [if_neg hfi]
            by_cases hfs : (st.in_steps && pyFirstIsDigit l) = true
            · rw [if_pos hfs]
              have hfs2 : st.in_steps = true := by
                have := hfs
                simp only [Bool.and_eq_true] at this
                exact this.1
              exact goodParse_stepAppend hg
                (by simp only [isIngHeader]; exact hih')
                (by simp only [isStepsHeader]; exact hsh') hfs2 rfl rfl rfl rfl
            · rw [if_neg hfs]
              exact goodParse_preserve hg
                (by simp only [isIngHeader]; exact hih')
                (by simp only [isStepsHeader]; exact hsh') rfl rfl rfl rfl
        · have hdesc' : (st.description == "") = false := by
            cases hb : st.description == ""
            · rfl
            · exact absurd hb hdesc
          have hpl : parseLine st l =
              (if st.in_ingredients then
                { st with ingredients := st.ingredients ++ [l] }
              else if st.in_steps && pyFirstIsDigit l then
                { st with steps := st.steps ++ [l] }
              else st) := by
            unfold parseLine
            simp [ht', hih', hsh', hdesc']
          rw [hpl]
          by_cases hfi : st.in_ingredients = true
          · rw [if_pos hfi]
            exact goodParse_ingAppend hg
              (by simp only [isIngHeader]; exact hih')
              (by simp only [isStepsHeader]; exact hsh') hfi rfl rfl rfl rfl
          · rw [if_neg hfi]
            by_cases hfs : (st.in_steps && pyFirstIsDigit l) = true
            · rw [if_pos hfs]
              have hfs2 : st.in_steps = true := by
                have := hfs
                simp only [Bool.and_eq_true] at this
                exact this.1
              exact goodParse_stepAppend hg
                (by simp only [isIngHeader]; exact hih')
                (by simp only [isStepsHeader]; exact hsh') hfs2 rfl rfl rfl rfl
            · rw [if_neg hfs]
              exact goodParse_preserve hg
                (by simp only [isIngHeader]; exact hih')
                (by simp only [isStepsHeader]; exact hsh') rfl rfl rfl rfl

theorem goodParse_init : GoodParse [] initParse :=
  { ing_flag := fun hf => by simp [initParse] at hf
    steps_flag := fun hf => by simp [initParse] at hf
    ing_prov := fun x hx => by simp [initParse] at hx
    steps_prov := fun x hx => by simp [initParse] at hx
    ing_no_hdr := fun x hx => by simp [initParse] at hx
    steps_no_hdr := fun x hx => by simp [initParse] at hx }

theorem goodParse_loop (ls : List String) {p : List String} {st : ParseState}
    (hg : GoodParse p st) : GoodParse (p ++ ls) (parseLoop st ls) := by
  induction ls generalizing p st with
  | nil => simpa [parseLoop] using hg
  | cons l ls ih =>
    have h2 := ih (goodParse_step l hg)
    rw [parseLoop_cons]
    simpa [List.append_assoc] using h2

theorem goodParse_all (ls : List String) : GoodParse ls (parseLoop initParse ls) := by
  simpa using goodParse_loop ls goodParse_init

theorem descUpd_fields (st : ParseState) (l : String) :
    (descUpd st l).ingredients = st.ingredients ∧ (descUpd st l).steps = st.steps ∧
      (descUpd st l).in_ingredients = st.in_ingredients ∧
      (descUpd st l).in_steps = st.in_steps := by
  unfold descUpd
  split <;> simp

/-- What one iteration does to a content line (no header, no title). -/
theorem parseLine_content_eq (st : ParseState) (l : String)
    (h1 : pyStartswith (pyLower l) "recipe:" = false)
    (h2 : isIngHeader l = false)
    (h3 : isStepsHeader l = false) :
    parseLine st l =
      (if st.in_ingredients then
        { descUpd st l with ingredients := st.ingredients ++ [l] }
      else if st.in_steps && pyFirstIsDigit l then
        { descUpd st l with steps := st.steps ++ [l] }
      else descUpd st l) := by
  obtain ⟨e1, e2, e3, e4⟩ := descUpd_fields st l
  simp only [isIngHeader] at h2
  simp only [isStepsHeader] at h3
  unfold parseLine descUpd
  by_cases hdesc : (st.description == "") = true
  · simp [h1, h2, h3, hdesc]
  · have hdesc' : (st.description == "") = false := by
      cases hb : st.description == ""
      · rfl
      · exact absurd hb hdesc
    simp [h1, h2, h3, hdesc']

/-- The `steps` accumulator only ever grows by lines whose first character is
a decimal digit. -/
theorem parseLine_steps_cases (st : ParseState) (l : String) :
    (parseLine st l).steps = st.steps ∨
      ((parseLine st l).steps = st.steps ++ [l] ∧ pyFirstIsDigit l = true) := by
  by_cases h1 : pyStartswith (pyLower l) "recipe:" = true
  · rw [parseLine_title st l h1]
    exact Or.inl rfl
  · have h1' : pyStartswith (pyLower l) "recipe:" = false := by
      cases hb : pyStartswith (pyLower l) "recipe:"
      · rfl
      · exact absurd hb h1
    by_cases h2 : isIngHeader l = true
    · rw [parseLine_ingHdr st l h1' h2]
      exact Or.inl rfl
    · have h2' : isIngHeader l = false := by
        cases hb : isIngHeader l
        · rfl
        · exact absurd hb h2
      by_cases h3 : isStepsHeader l = true
      · rw [parseLine_stepsHdr st l h1' h2' h3]
        exact Or.inl rfl
      · have h3' : isStepsHeader l = false := by
          cases hb : isStepsHeader l
          · rfl
          · exact absurd hb h3
        rw [parseLine_content_eq st l h1' h2' h3']
        obtain ⟨e1, e2, e3, e4⟩ := descUpd_fields st l
        by_cases hfi : st.in_ingredients = true
        · rw [if_pos hfi]
          exact Or.inl e2
        · rw [if_neg hfi]
          by_cases hfs : (st.in_steps && pyFirstIsDigit l) = true
          · rw [if_pos hfs]
            refine Or.inr ⟨rfl, ?_⟩
            simp only [Bool.and_eq_true] at hfs
            exact hfs.2
          · rw [if_neg hfs]
            exact Or.inl e2

theorem parseLoop_steps_digit (ls : List String) (st : ParseState)
    (h : ∀ x ∈ st.steps, pyFirstIsDigit x = true) :
    ∀ x ∈ (parseLoop st ls).steps, pyFirstIsDigit x = true := by
  induction ls generalizing st with
  | nil => exact h
  | cons l ls ih =>
    rw [parseLoop_cons]
    refine ih (parseLine st l) ?_
    intro x hx
    rcases parseLine_steps_cases st l with hc | ⟨hc, hdig⟩
    · exact h x (hc ▸ hx)
    · rw [hc] at hx
      rcases List.mem_append.mp hx with hx | hx
      · exact h x hx
      · rw [List.mem_singleton.mp hx]
        exact hdig

/-! ## Claim theorems -/

/-- Claim C2: for every session state, routing an utterance containing any of
the Advance keywords takes the Advance branch: if `current_step` is below the
number of steps the response is exactly `Step {current_step+1}. {step}` and
the cursor is incremented, otherwise the response is exactly
`We already finished all the steps.` and the cursor is unchanged. -/
theorem claim2_advance (llm : String → String → String) (cmd : String)
    (s : SessionState)
    (h : advanceWords.any (fun w => pyIn w cmd) = true) :
    (∀ hlt : s.current_step < s.steps.length,
      route llm cmd s =
        some ("Step " ++ toString (s.current_step + 1) ++ ". " ++
            s.steps.get ⟨s.current_step, hlt⟩,
          { s with
            current_step := s.current_step + 1,
            chat_history := s.chat_history ++
              [("user", cmd),
                ("assistant", "Step " ++ toString (s.current_step + 1) ++ ". " ++
                  s.steps.get ⟨s.current_step, hlt⟩)] })) ∧
    (s.steps.length ≤ s.current_step →
      route llm cmd s =
        some ("We already finished all the steps.",
          { s with
            chat_history := s.chat_history ++
              [("user", cmd), ("assistant", "We already finished all the steps.")] })) := by
  constructor
  · intro hlt
    have hg : s.steps[s.current_step]? = some (s.steps.get ⟨s.current_step, hlt⟩) := by
      rw [List.getElem?_eq_getElem hlt]
      simp [List.get_eq_getElem]
    simp [route, routeCore, h, hlt, hg]
  · intro hge
    have hnlt : ¬ s.current_step < s.steps.length := by omega
    simp [route, routeCore, h, hnlt]

/-- Witness for claim C2, at a concrete session below and at the end of the
step list. -/
theorem claim2_advance_witness :
    route llmFixed "next" ⟨"pasta", [], ["Boil water.", "Add salt."], 1, []⟩ =
      some ("Step 2. Add salt.",
        ⟨"pasta", [], ["Boil water.", "Add salt."], 2,
          [("user", "next"), ("assistant", "Step 2. Add salt.")]⟩) :=
  (claim2_advance llmFixed "next"
    ⟨"pasta", [], ["Boil water.", "Add salt."], 1, []⟩ (by decide)).1 (by decide)

/-- Claim C10: there is an input on which the very same line is recorded both
as the description and as the first ingredient — here the first line after
the `Ingredients:` header, because the description assignment does not
exclude the line from section content. -/
theorem claim10_description_overlap :
    get_recipe_from_ai "Recipe: Pasta\nIngredients:\n- 1 cup flour\nSteps:\n1. Mix." =
        ⟨"Recipe: Pasta", "- 1 cup flour", ["- 1 cup flour"], ["1. Mix."]⟩ ∧
      (get_recipe_from_ai "Recipe: Pasta\nIngredients:\n- 1 cup flour\nSteps:\n1. Mix.").description =
        (get_recipe_from_ai "Recipe: Pasta\nIngredients:\n- 1 cup flour\nSteps:\n1. Mix.").ingredients.headD "" :=
  ⟨rfl, rfl⟩

/-- Claim C3: for every session state (within the data-model cursor bound),
routing an utterance containing `back` or `previous` and none of the Advance
or Repeat keywords takes the GoBack branch with guard `current_step > 1`:
above 1 the cursor is decremented and the response carries the new current
step's text; at or below 1 the cursor is unchanged and the response is the
already-at-the-beginning message, so stepping back from step 1 to step 0 is
impossible. -/
theorem claim3_goback (llm : String → String → String) (cmd : String)
    (s : SessionState)
    (hkw : (pyIn "back" cmd || pyIn "previous" cmd) = true)
    (hadv : advanceWords.any (fun w => pyIn w cmd) = false)
    (hrep : (pyIn "repeat" cmd || pyIn "again" cmd) = false)
    (hinv : s.current_step ≤ s.steps.length) :
    (∀ hgt : 1 < s.current_step,
      route llm cmd s =
        some ("Going back to step " ++ toString (s.current_step - 1) ++ ". " ++
            s.steps.get ⟨s.current_step - 1 - 1, by omega⟩,
          { s with
            current_step := s.current_step - 1,
            chat_history := s.chat_history ++
              [("user", cmd),
                ("assistant", "Going back to step " ++ toString (s.current_step - 1) ++
                  ". " ++ s.steps.get ⟨s.current_step - 1 - 1, by omega⟩)] })) ∧
    (s.current_step ≤ 1 →
      route llm cmd s =
        some ("You are already at the beginning of the recipe.",
          { s with
            chat_history := s.chat_history ++
              [("user", cmd),
                ("assistant", "You are already at the beginning of the recipe.")] })) := by
  constructor
  · intro hgt
    have hb : s.current_step - 1 - 1 < s.steps.length := by omega
    have hg : s.steps[s.current_step - 1 - 1]? =
        some (s.steps.get ⟨s.current_step - 1 - 1, hb⟩) := by
      rw [List.getElem?_eq_getElem hb]
      simp [List.get_eq_getElem]
    simp [route, routeCore, hkw, hadv, hrep, hgt, hg]
  · intro hle
    have hngt : ¬ s.current_step > 1 := by omega
    simp [route, routeCore, hkw, hadv, hrep, hngt]

/-- Witness for claim C3: going back from step 2 to step 1. -/
theorem claim3_goback_witness :
    route llmFixed "back" ⟨"dal", [], ["Rinse.", "Boil."], 2, []⟩ =
      some ("Going back to step 1. Rinse.",
        ⟨"dal", [], ["Rinse.", "Boil."], 1,
          [("user", "back"), ("assistant", "Going back to step 1. Rinse.")]⟩) :=
  (claim3_goback llmFixed "back" ⟨"dal", [], ["Rinse.", "Boil."], 2, []⟩
    (by decide) (by decide) (by decide) (by decide)).1 (by decide)

/-- Claim C9: with an empty step list and cursor 0, Advance, Repeat and
GoBack all answer their boundary messages without ever indexing into the
list, and the cursor stays 0. -/
theorem claim9_empty_steps (llm : String → String → String) (cmd : String)
    (s : SessionState) (hsteps : s.steps = []) (hcs : s.current_step = 0) :
    (advanceWords.any (fun w => pyIn w cmd) = true →
      route llm cmd s =
        some ("We already finished all the steps.",
          { s with chat_history := s.chat_history ++
              [("user", cmd), ("assistant", "We already finished all the steps.")] })) ∧
    (advanceWords.any (fun w => pyIn w cmd) = false →
      (pyIn "repeat" cmd || pyIn "again" cmd) = true →
      route llm cmd s =
        some ("We have not started yet. Say \x27next\x27 to hear the first step.",
          { s with chat_history := s.chat_history ++
              [("user", cmd),
                ("assistant",
                  "We have not started yet. Say \x27next\x27 to hear the first step.")] })) ∧
    (advanceWords.any (fun w => pyIn w cmd) = false →
      (pyIn "repeat" cmd || pyIn "again" cmd) = false →
      (pyIn "back" cmd || pyIn "previous" cmd) = true →
      route llm cmd s =
        some ("You are already at the beginning of the recipe.",
          { s with chat_history := s.chat_history ++
              [("user", cmd),
                ("assistant", "You are already at the beginning of the recipe.")] })) := by
  refine ⟨?_, ?_, ?_⟩
  · intro h
    have hnlt : ¬ s.current_step < s.steps.length := by
      rw [hsteps]
      simp
    simp [route, routeCore, h, hnlt]
  · intro h1 h2
    have hngt : ¬ s.current_step > 0 := by omega
    simp [route, routeCore, h1, h2, hngt]
  · intro h1 h2 h3
    have hngt : ¬ s.current_step > 1 := by omega
    simp [route, routeCore, h1, h2, h3, hngt]

/-- Witness for claim C9 in the empty initial session. -/
theorem claim9_empty_steps_witness :
    route llmFixed "next" initSession =
      some ("We already finished all the steps.",
        { initSession with chat_history :=
            [("user", "next"), ("assistant", "We already finished all the steps.")] }) :=
  (claim9_empty_steps llmFixed "next" initSession rfl rfl).1 (by decide)

/-- Under the data-model cursor bound no branch of the classification chain
can fail: the router always produces a response. -/
theorem routeCore_some (llm : String → String → String) (cmd : String)
    (s : SessionState) (hinv : s.current_step ≤ s.steps.length) :
    ∃ p, routeCore llm cmd s = some p := by
  unfold routeCore
  repeat' split
  all_goals try exact ⟨_, rfl⟩
  all_goals exfalso
  all_goals simp only [List.getElem?_eq_none_iff] at *
  all_goals omega

/-- Claim C5: one routing invocation on any command appends exactly the two
entries `(user, command)` then `(assistant, response)` to the history,
touching nothing before them, in every branch. -/
theorem claim5_history (llm : String → String → String) (cmd : String)
    (s : SessionState) (hinv : s.current_step ≤ s.steps.length) :
    ∃ resp s2, route llm cmd s = some (resp, s2) ∧
      s2.chat_history = s.chat_history ++ [("user", cmd), ("assistant", resp)] := by
  obtain ⟨⟨resp, cs⟩, hp⟩ := routeCore_some llm cmd s hinv
  have hroute : route llm cmd s =
      some (resp,
        { s with
          current_step := cs,
          chat_history := s.chat_history ++ [("user", cmd), ("assistant", resp)] }) := by
    simp [route, hp]
  exact ⟨resp, _, hroute, rfl⟩

/-- Witness for claim C5 on a Stop command. -/
theorem claim5_history_witness :
    ∃ resp s2,
      route llmFixed "stop" ⟨"dal", [], ["Rinse."], 1, [("assistant", "hello")]⟩ =
          some (resp, s2) ∧
        s2.chat_history =
          [("assistant", "hello")] ++ [("user", "stop"), ("assistant", resp)] :=
  claim5_history llmFixed "stop" ⟨"dal", [], ["Rinse."], 1, [("assistant", "hello")]⟩
    (by decide)

/-- The cursor produced by a successful classification stays within the step
list bound. -/
theorem routeCore_cursor (llm : String → String → String) (cmd : String)
    (s : SessionState) {resp : String} {cs2 : Nat}
    (hinv : s.current_step ≤ s.steps.length)
    (h : routeCore llm cmd s = some (resp, cs2)) : cs2 ≤ s.steps.length := by
  unfold routeCore at h
  repeat' split at h
  all_goals simp only [Option.some.injEq, Prod.mk.injEq, reduceCtorEq] at h
  all_goals (obtain ⟨h1, h2⟩ := h)
  all_goals omega

/-- Claim C6: the cursor invariant `0 ≤ current_step ≤ len(steps)` holds in
the empty initial session, is preserved by every routing invocation, and
holds after every successful recipe load (which resets the cursor to 0). -/
theorem claim6_cursor_invariant :
    cursorInv initSession ∧
    (∀ (llm : String → String → String) (cmd : String) (s : SessionState)
        (resp : String) (s2 : SessionState),
      cursorInv s → route llm cmd s = some (resp, s2) → cursorInv s2) ∧
    (∀ (content dish : String) (s : SessionState),
      cursorInv (loadRecipe content dish s)) := by
  refine ⟨by simp [cursorInv, initSession], ?_, ?_⟩
  · intro llm cmd s resp s2 hinv hr
    unfold route at hr
    cases hp : routeCore llm cmd s with
    | none => rw [hp] at hr; cases hr
    | some p =>
      obtain ⟨r2, cs2⟩ := p
      rw [hp] at hr
      simp only [Option.some.injEq, Prod.mk.injEq] at hr
      obtain ⟨hr1, hr2⟩ := hr
      have hle := routeCore_cursor llm cmd s hinv hp
      rw [← hr2]
      simpa [cursorInv] using hle
  · intro content dish s
    simp [cursorInv, loadRecipe]

/-- Witness for claim C6: preservation through one Advance invocation. -/
theorem claim6_cursor_invariant_witness :
    cursorInv ⟨"dal", [], ["Rinse.", "Boil."], 2,
      [("user", "next"), ("assistant", "Step 2. Boil.")]⟩ :=
  claim6_cursor_invariant.2.1 llmFixed "next" ⟨"dal", [], ["Rinse.", "Boil."], 1, []⟩
    "Step 2. Boil."
    ⟨"dal", [], ["Rinse.", "Boil."], 2,
      [("user", "next"), ("assistant", "Step 2. Boil.")]⟩
    (by decide) (by decide)

/-- Claim C4 counterexample: the utterance `ingredients again` — one of the
two trigger phrases the claim names — contains the Repeat keyword `again`,
so the classification chain answers from the Repeat branch, not with the
joined ingredient line the claim requires, even though ingredients are
loaded. -/
theorem claim4_counterexample :
    route llmFixed "ingredients again"
        ⟨"pancakes", ["- 2 cups flour", "- 1 egg"], ["Mix.", "Fry."], 0, []⟩ =
      some ("We have not started yet. Say \x27next\x27 to hear the first step.",
        ⟨"pancakes", ["- 2 cups flour", "- 1 egg"], ["Mix.", "Fry."], 0,
          [("user", "ingredients again"),
            ("assistant",
              "We have not started yet. Say \x27next\x27 to hear the first step.")]⟩) ∧
      "We have not started yet. Say \x27next\x27 to hear the first step." ≠
        "Here are the ingredients again: - 2 cups flour - 1 egg" :=
  ⟨rfl, by decide⟩

/-- Claim C4 as amended: routing an utterance that contains
`ingredients again` or `list ingredients` and none of the Advance, Repeat,
GoBack or Stop keywords produces the ListIngredients behaviour: the joined
ingredient line when ingredients are loaded, the fixed no-ingredients
message otherwise, with dish, ingredients, steps and cursor unchanged. -/
theorem claim4_amended (llm : String → String → String) (cmd : String)
    (s : SessionState)
    (hkw : (pyIn "ingredients again" cmd || pyIn "list ingredients" cmd) = true)
    (hadv : advanceWords.any (fun w => pyIn w cmd) = false)
    (hrep : (pyIn "repeat" cmd || pyIn "again" cmd) = false)
    (hback : (pyIn "back" cmd || pyIn "previous" cmd) = false)
    (hstop : (pyIn "stop" cmd || pyIn "exit" cmd || pyIn "quit" cmd) = false) :
    (s.ingredients ≠ [] →
      route llm cmd s =
        some ("Here are the ingredients again: " ++ String.intercalate " " s.ingredients,
          { s with chat_history := s.chat_history ++
              [("user", cmd),
                ("assistant", "Here are the ingredients again: " ++
                  String.intercalate " " s.ingredients)] })) ∧
    (s.ingredients = [] →
      route llm cmd s =
        some ("I do not have an ingredients list loaded.",
          { s with chat_history := s.chat_history ++
              [("user", cmd),
                ("assistant", "I do not have an ingredients list loaded.")] })) := by
  constructor
  · intro hne
    simp [route, routeCore, hkw, hadv, hrep, hback, hstop, hne]
  · intro he
    simp [route, routeCore, hkw, hadv, hrep, hback, hstop, he]

/-- Witness for the amended claim C4 on `list ingredients`. -/
theorem claim4_amended_witness :
    route llmFixed "list ingredients" ⟨"dal", ["- salt"], ["Rinse."], 0, []⟩ =
      some ("Here are the ingredients again: - salt",
        ⟨"dal", ["- salt"], ["Rinse."], 0,
          [("user", "list ingredients"),
            ("assistant", "Here are the ingredients again: - salt")]⟩) := by
  have h := (claim4_amended llmFixed "list ingredients"
    ⟨"dal", ["- salt"], ["Rinse."], 0, []⟩
    (by decide) (by decide) (by decide) (by decide) (by decide)).1 (by decide)
  exact h

/-- Claim C8: a line in the steps section whose first character is not a
decimal digit is never added to the step list — every stored step starts
with a digit — and the spec's example parses as stated, the non-digit line
surviving only as the description. -/
theorem claim8_digit_filter :
    (∀ content : String, ∀ x ∈ (get_recipe_from_ai content).steps,
      pyFirstIsDigit x = true) ∧
    get_recipe_from_ai "Steps:\nnote: optional\n1. Boil water." =
      ⟨"", "note: optional", [], ["1. Boil water."]⟩ := by
  constructor
  · intro content x hx
    exact parseLoop_steps_digit (splitLines content) initParse
      (by intro y hy; simp [initParse] at hy) x hx
  · rfl

/-- Witness for claim C8 at the example input. -/
theorem claim8_digit_filter_witness :
    pyFirstIsDigit "1. Boil water." = true :=
  claim8_digit_filter.1 "Steps:\nnote: optional\n1. Boil water." "1. Boil water."
    (by decide)

/-- Claim C7: every stored ingredient comes from a line strictly after an
ingredients header with no steps header in between, every stored step from a
line strictly after a steps header with no ingredients header in between,
and header lines themselves are never stored as content. -/
theorem claim7_provenance (content : String) :
    (∀ x ∈ (get_recipe_from_ai content).ingredients,
      ingProvenance (splitLines content) x ∧
        isIngHeader x = false ∧ isStepsHeader x = false) ∧
    (∀ x ∈ (get_recipe_from_ai content).steps,
      stepProvenance (splitLines content) x ∧
        isIngHeader x = false ∧ isStepsHeader x = false) := by
  have hg := goodParse_all (splitLines content)
  exact ⟨fun x hx => ⟨hg.ing_prov x hx, (hg.ing_no_hdr x hx).1, (hg.ing_no_hdr x hx).2⟩,
    fun x hx => ⟨hg.steps_prov x hx, (hg.steps_no_hdr x hx).1, (hg.steps_no_hdr x hx).2⟩⟩

/-- Witness for claim C7 at the Pancakes input. -/
theorem claim7_provenance_witness :
    ingProvenance (splitLines pancakesText) "- 2 cups flour" :=
  ((claim7_provenance pancakesText).1 "- 2 cups flour" (by decide)).1

/-- Claim C1: every well-formed four-part input parses to exactly its title
line, its description line, its ingredient lines in order, and its step
lines in order; in particular the spec's Pancakes example parses as stated. -/
theorem claim1_wellformed :
    (∀ (content title desc : String) (ingLs stepLs : List String),
      splitLines content =
        title :: desc :: "Ingredients:" :: (ingLs ++ "Steps:" :: stepLs) →
      pyStartswith (pyLower title) "recipe:" = true →
      desc ≠ "" →
      pyStartswith (pyLower desc) "recipe:" = false →
      isIngHeader desc = false →
      isStepsHeader desc = false →
      (∀ l ∈ ingLs, pyStartswith (pyLower l) "recipe:" = false ∧
        isIngHeader l = false ∧ isStepsHeader l = false) →
      (∀ l ∈ stepLs, pyStartswith (pyLower l) "recipe:" = false ∧
        isIngHeader l = false ∧ isStepsHeader l = false ∧ pyFirstIsDigit l = true) →
      get_recipe_from_ai content = ⟨title, desc, ingLs, stepLs⟩) ∧
    get_recipe_from_ai pancakesText =
      ⟨"Recipe: Pancakes", "Fluffy breakfast pancakes.",
        ["- 2 cups flour", "- 1 egg"],
        ["1. Mix dry ingredients.", "2. Add egg and milk."]⟩ := by
  constructor
  · intro content title desc ingLs stepLs hsplit htitle hdesc hdr hdi hds hing hstep
    have hloop :
        parseLoop initParse
            (title :: desc :: "Ingredients:" :: (ingLs ++ "Steps:" :: stepLs)) =
          ⟨title, desc, ingLs, stepLs, false, true⟩ := by
      rw [parseLoop_cons, parseLine_title initParse title htitle]
      rw [parseLoop_cons, parseLine_desc _ desc hdr hdi hds rfl rfl rfl]
      rw [parseLoop_cons, parseLine_ingHdr _ "Ingredients:" (by decide) (by decide)]
      rw [parseLoop_append]
      rw [parseLoop_ingSection ingLs _ hdesc rfl hing]
      rw [parseLoop_cons, parseLine_stepsHdr _ "Steps:" (by decide) (by decide) (by decide)]
      rw [parseLoop_stepSection stepLs _ hdesc rfl rfl hstep]
      simp [initParse]
    simp only [get_recipe_from_ai]
    rw [hsplit, hloop]
  · rfl

/-- Witness for claim C1, discharging the well-formedness hypotheses at the
Pancakes input. -/
theorem claim1_wellformed_witness :
    get_recipe_from_ai pancakesText =
      ⟨"Recipe: Pancakes", "Fluffy breakfast pancakes.",
        ["- 2 cups flour", "- 1 egg"],
        ["1. Mix dry ingredients.", "2. Add egg and milk."]⟩ :=
  claim1_wellformed.1 pancakesText "Recipe: Pancakes" "Fluffy breakfast pancakes."
    ["- 2 cups flour", "- 1 egg"] ["1. Mix dry ingredients.", "2. Add egg and milk."]
    (by decide) (by decide) (by decide) (by decide) (by decide) (by decide)
    (by decide) (by decide)

end CookingApp
